import Mathlib

/-!
Verification development for the quantum-resistant signature service in
`FAITH_BLOCKCHAIN_EMPIRE/Quantum_Crypto_Engineer/quantum_keygen.py`.

The Python module wraps the CRYSTALS-Dilithium5 primitive from `pqcrypto`
(an external, audited dependency) with three functions:

  generate_quantum_keypair()            -- keygen, hex-encode both buffers
  sign_message(message, secret_key_hex) -- fromhex, sign, hex-encode
  verify_signature(message, signature_hex, public_key_hex)
                                        -- fromhex both, try verify/decode, bare except -> False

We embed the wrapper faithfully.  Byte buffers are `List Nat` with every
element `< 256` (the `bytes` invariant, carried as hypotheses).  The external
primitive is a parameter (`Primitive`): `sign sk m` returns the attached
signed message or `none` when the C library raises, `verify pk sm` returns
the embedded original message or `none` when verification fails or raises;
`keygen` is one sampled keypair.  A Python exception that propagates to the
caller is `Except.error`; a value returned normally is `Except.ok`.

Python's `bytes.hex` / `bytes.fromhex` and `str.encode` / `bytes.decode`
(UTF-8) are modelled concretely below: `fromhex` skips ASCII whitespace
falling between byte pairs, exactly as `bytes.fromhex` does, and accepts
upper- and lower-case digits; `bytes.hex` emits lowercase.
-/

namespace QuantumKeygen

/-- A hex digit character for a value `< 16`, lowercase, as `bytes.hex` emits. -/
def hexDigitChar (n : Nat) : Char :=
  if n < 10 then Char.ofNat (48 + n) else Char.ofNat (87 + n)

/-- The two hex characters of one byte, high nibble first. -/
def byteToHex (b : Nat) : List Char :=
  [hexDigitChar (b / 16), hexDigitChar (b % 16)]

/-- Python `bytes.hex()`: lowercase hexadecimal, no separators. -/
def hexEncode (bs : List Nat) : String :=
  ⟨bs.flatMap byteToHex⟩

/-- Value of a hex digit; both cases accepted, as `bytes.fromhex` does. -/
def hexVal (c : Char) : Option Nat :=
  if 48 ≤ c.toNat ∧ c.toNat ≤ 57 then some (c.toNat - 48)
  else if 97 ≤ c.toNat ∧ c.toNat ≤ 102 then some (c.toNat - 87)
  else if 65 ≤ c.toNat ∧ c.toNat ≤ 70 then some (c.toNat - 55)
  else none

/-- ASCII whitespace, which `bytes.fromhex` skips between byte pairs. -/
def isAsciiWS (c : Char) : Bool :=
  c.toNat = 32 || c.toNat = 9 || c.toNat = 10 || c.toNat = 11 ||
  c.toNat = 12 || c.toNat = 13

/-- Parsing loop of CPython `bytes.fromhex`: skip ASCII whitespace, then read
two adjacent hex digits per byte; anything else raises `ValueError` (here:
`none`). -/
def fromhexAux : List Char → Option (List Nat)
  | [] => some []
  | c :: cs =>
    if isAsciiWS c then fromhexAux cs
    else
      match cs with
      | [] => none
      | d :: cs! =>
        match hexVal c, hexVal d with
        | some hi, some lo => (fromhexAux cs!).map (fun bs => (16 * hi + lo) :: bs)
        | _, _ => none

/-- Python `bytes.fromhex`; `none` models a raised `ValueError`. -/
def fromhex (s : String) : Option (List Nat) :=
  fromhexAux s.data

/-- UTF-8 bytes of one Unicode scalar value, as Python `str.encode()` emits
for each character.  Codepoints quantified over Lean `Char` are exactly the
Unicode scalar values, so the encoder is total, like `str.encode` on
surrogate-free Python strings. -/
def utf8EncodeCp (n : Nat) : List Nat :=
  if n < 0x80 then [n]
  else if n < 0x800 then [0xC0 + n / 64, 0x80 + n % 64]
  else if n < 0x10000 then
    [0xE0 + n / 4096, 0x80 + (n / 64) % 64, 0x80 + n % 64]
  else
    [0xF0 + n / 0x40000, 0x80 + (n / 4096) % 64, 0x80 + (n / 64) % 64, 0x80 + n % 64]

/-- Python `message.encode()`: UTF-8 bytes of the string. -/
def strEncode (s : String) : List Nat :=
  s.data.flatMap (fun c => utf8EncodeCp c.toNat)

/-- One step of the validating UTF-8 decoder underlying Python
`bytes.decode()`: read one codepoint from the front of the buffer, rejecting
stray or missing continuation bytes, overlong forms, surrogates and
codepoints above `0x10FFFF`; `none` models a raised `UnicodeDecodeError`. -/
def utf8DecodeOne : List Nat → Option (Nat × List Nat)
  | [] => none
  | b :: rest =>
    if b < 0x80 then some (b, rest)
    else if b < 0xC0 then none
    else if b < 0xE0 then
      match rest with
      | b1 :: rest1 =>
        if 0x80 ≤ b1 ∧ b1 < 0xC0 then
          if (b - 0xC0) * 64 + (b1 - 0x80) < 0x80 then none
          else some ((b - 0xC0) * 64 + (b1 - 0x80), rest1)
        else none
      | [] => none
    else if b < 0xF0 then
      match rest with
      | b1 :: b2 :: rest2 =>
        if (0x80 ≤ b1 ∧ b1 < 0xC0) ∧ (0x80 ≤ b2 ∧ b2 < 0xC0) then
          if (b - 0xE0) * 4096 + (b1 - 0x80) * 64 + (b2 - 0x80) < 0x800 then none
          else if 0xD800 ≤ (b - 0xE0) * 4096 + (b1 - 0x80) * 64 + (b2 - 0x80) ∧
                  (b - 0xE0) * 4096 + (b1 - 0x80) * 64 + (b2 - 0x80) < 0xE000 then none
          else some ((b - 0xE0) * 4096 + (b1 - 0x80) * 64 + (b2 - 0x80), rest2)
        else none
      | _ => none
    else if b < 0xF8 then
      match rest with
      | b1 :: b2 :: b3 :: rest3 =>
        if (0x80 ≤ b1 ∧ b1 < 0xC0) ∧ (0x80 ≤ b2 ∧ b2 < 0xC0) ∧ (0x80 ≤ b3 ∧ b3 < 0xC0) then
          if (b - 0xF0) * 0x40000 + (b1 - 0x80) * 4096 + (b2 - 0x80) * 64 + (b3 - 0x80) < 0x10000 then none
          else if 0x110000 ≤ (b - 0xF0) * 0x40000 + (b1 - 0x80) * 4096 + (b2 - 0x80) * 64 + (b3 - 0x80) then none
          else some ((b - 0xF0) * 0x40000 + (b1 - 0x80) * 4096 + (b2 - 0x80) * 64 + (b3 - 0x80), rest3)
        else none
      | _ => none
    else none

/-- Decoding loop of Python `bytes.decode()`: repeatedly read one codepoint;
`none` models a raised `UnicodeDecodeError`. -/
def utf8DecodeAux : List Nat → Option (List Char)
  | [] => some []
  | b :: rest =>
    match h : utf8DecodeOne (b :: rest) with
    | none => none
    | some (n, rest2) => (utf8DecodeAux rest2).map (fun cs => Char.ofNat n :: cs)
termination_by bs => bs.length
decreasing_by
  unfold utf8DecodeOne at h
  repeat' split at h
  all_goals simp_all [List.length_cons]
  all_goals omega

/-- Python `original.decode()`: UTF-8 decoding of a byte buffer into a
string; `none` models a raised `UnicodeDecodeError`. -/
def strDecode (bs : List Nat) : Option String :=
  (utf8DecodeAux bs).map (fun cs => ⟨cs⟩)

/-- A Python exception propagating out of one of the wrapper functions. -/
inductive PyErr where
  /-- `ValueError` raised by `bytes.fromhex` on malformed hex input. -/
  | valueError : PyErr
  /-- An exception raised inside the external pqcrypto primitive. -/
  | primitiveError : PyErr
deriving DecidableEq

/-- The external CRYSTALS-Dilithium5 capability imported from
`pqcrypto.sign.dilithium5`, as the wrapper uses it: `sign sk m` returns the
attached signed message (from which `verify` recovers `m`) or `none` when
the library raises; `verify pk sm` returns the embedded original message or
`none` when the signature is invalid or the library raises.  `keygen` is one
sampled keypair `(public_key, secret_key)`; `PK_LEN`/`SK_LEN` are the
algorithm's fixed buffer lengths. -/
structure Primitive where
  PK_LEN : Nat
  SK_LEN : Nat
  keygen : List Nat × List Nat
  sign : List Nat → List Nat → Option (List Nat)
  verify : List Nat → List Nat → Option (List Nat)

/-- The dict returned by `generate_quantum_keypair`. -/
structure KeyRecord where
  public_key : String
  secret_key : String
deriving DecidableEq

/-- `generate_quantum_keypair()`: delegate to the primitive's keygen and
hex-encode both buffers.  The source performs no validation and cannot
fail. -/
def generate_quantum_keypair (P : Primitive) : KeyRecord :=
  { public_key := hexEncode P.keygen.1
    secret_key := hexEncode P.keygen.2 }

/-- `sign_message(message, secret_key_hex)`: decode the key from hex, UTF-8
encode the message, sign, hex-encode the signature.  Nothing is caught, so
a `ValueError` from `bytes.fromhex` or an error from the primitive's sign
propagates to the caller (`Except.error`). -/
def sign_message (P : Primitive) (message : String) (secret_key_hex : String) :
    Except PyErr String :=
  match fromhex secret_key_hex with
  | none => .error .valueError
  | some secret_key =>
    match P.sign secret_key (strEncode message) with
    | none => .error .primitiveError
    | some signature => .ok (hexEncode signature)

/-- `verify_signature(message, signature_hex, public_key_hex)`: both hex
decodings happen OUTSIDE the `try` block, so a malformed hex string raises
to the caller; inside the `try`, any failure of the primitive's verify or of
UTF-8 decoding the recovered message is swallowed by the bare `except` and
yields `False`. -/
def verify_signature (P : Primitive) (message : String) (signature_hex : String)
    (public_key_hex : String) : Except PyErr Bool :=
  match fromhex signature_hex with
  | none => .error .valueError
  | some signature =>
    match fromhex public_key_hex with
    | none => .error .valueError
    | some public_key =>
      .ok (match P.verify public_key signature with
           | none => false
           | some original =>
             match strDecode original with
             | none => false
             | some s => s == message)

/-- A concrete stand-in primitive used to instantiate the theorems below on
closed inputs: one-byte keys, keypair `([1], [2])`; signing prepends the
secret key to the message and succeeds exactly on well-shaped secret keys;
verification recovers the message exactly under the matching public key. -/
def toyPrim : Primitive where
  PK_LEN := 1
  SK_LEN := 1
  keygen := ([1], [2])
  sign := fun sk m => if sk.length = 1 then some (sk ++ m) else none
  verify := fun pk sm =>
    if pk = [1] then
      match sm with
      | 2 :: m => some m
      | _ => none
    else none

/-- A stand-in primitive whose keygen output violates its own declared
buffer lengths, exercising the absent contract check in
`generate_quantum_keypair`. -/
def brokenPrim : Primitive where
  PK_LEN := 1
  SK_LEN := 1
  keygen := ([], [])
  sign := fun _ _ => none
  verify := fun _ _ => none

lemma hexVal_hexDigitChar : ∀ n < 16, hexVal (hexDigitChar n) = some n := by decide

lemma isAsciiWS_hexDigitChar : ∀ n < 16, isAsciiWS (hexDigitChar n) = false := by decide

lemma fromhexAux_byte (b : Nat) (hb : b < 256) (l : List Char) :
    fromhexAux (byteToHex b ++ l) = (fromhexAux l).map (fun bs => b :: bs) := by
  have h1 : b / 16 < 16 := by omega
  have h2 : b % 16 < 16 := by omega
  simp only [byteToHex, List.cons_append, List.nil_append, fromhexAux,
    isAsciiWS_hexDigitChar _ h1, Bool.false_eq_true, if_false,
    hexVal_hexDigitChar _ h1, hexVal_hexDigitChar _ h2]
  have : 16 * (b / 16) + b % 16 = b := by omega
  rw [this]
  rfl

lemma fromhex_hexEncode (bs : List Nat) (h : ∀ x ∈ bs, x < 256) :
    fromhex (hexEncode bs) = some bs := by
  suffices hh : fromhexAux (bs.flatMap byteToHex) = some bs by
    simpa [fromhex, hexEncode] using hh
  induction bs with
  | nil => simp [fromhexAux]
  | cons b t ih =>
    have hb : b < 256 := h b (by simp)
    have ht : ∀ x ∈ t, x < 256 := fun x hx => h x (by simp [hx])
    simp [List.flatMap_cons, fromhexAux_byte b hb, ih ht]

lemma utf8DecodeOne_length : ∀ bs n rest, utf8DecodeOne bs = some (n, rest) →
    rest.length < bs.length := by
  intro bs n rest h
  unfold utf8DecodeOne at h
  repeat' split at h
  all_goals simp_all [List.length_cons]
  all_goals omega

lemma utf8DecodeOne_encodeCp (c : Char) (l : List Nat) :
    utf8DecodeOne (utf8EncodeCp c.toNat ++ l) = some (c.toNat, l) := by
  have hv : c.toNat < 0xd800 ∨ (0xe000 ≤ c.toNat ∧ c.toNat < 0x110000) := c.valid
  by_cases h1 : c.toNat < 0x80
  · simp only [utf8EncodeCp, if_pos h1, List.cons_append, List.nil_append,
      utf8DecodeOne, if_pos h1]
  · by_cases h2 : c.toNat < 0x800
    · have e1 : ¬ (0xC0 + c.toNat / 64 < 0x80) := by omega
      have e2 : ¬ (0xC0 + c.toNat / 64 < 0xC0) := by omega
      have e3 : 0xC0 + c.toNat / 64 < 0xE0 := by omega
      have e4 : 0x80 ≤ 0x80 + c.toNat % 64 ∧ 0x80 + c.toNat % 64 < 0xC0 := by omega
      have e5 : (0xC0 + c.toNat / 64 - 0xC0) * 64 + (0x80 + c.toNat % 64 - 0x80) =
          c.toNat := by omega
      simp only [utf8EncodeCp, if_neg h1, if_pos h2, List.cons_append, List.nil_append,
        utf8DecodeOne, if_neg e1, if_neg e2, if_pos e3, if_pos e4, e5,
        if_neg (by omega : ¬ c.toNat < 0x80)]
    · by_cases h3 : c.toNat < 0x10000
      · have e1 : ¬ (0xE0 + c.toNat / 4096 < 0x80) := by omega
        have e2 : ¬ (0xE0 + c.toNat / 4096 < 0xC0) := by omega
        have e3 : ¬ (0xE0 + c.toNat / 4096 < 0xE0) := by omega
        have e4 : 0xE0 + c.toNat / 4096 < 0xF0 := by omega
        have e5 : (0x80 ≤ 0x80 + c.toNat / 64 % 64 ∧ 0x80 + c.toNat / 64 % 64 < 0xC0) ∧
            (0x80 ≤ 0x80 + c.toNat % 64 ∧ 0x80 + c.toNat % 64 < 0xC0) := by omega
        have e6 : (0xE0 + c.toNat / 4096 - 0xE0) * 4096 +
            (0x80 + c.toNat / 64 % 64 - 0x80) * 64 + (0x80 + c.toNat % 64 - 0x80) =
            c.toNat := by omega
        have e7 : ¬ (c.toNat < 0x800) := h2
        have e8 : ¬ (0xD800 ≤ c.toNat ∧ c.toNat < 0xE000) := by omega
        simp only [utf8EncodeCp, if_neg h1, if_neg h2, if_pos h3, List.cons_append,
          List.nil_append, utf8DecodeOne, if_neg e1, if_neg e2, if_neg e3, if_pos e4,
          if_pos e5, e6, if_neg e7, if_neg e8]
      · have h4 : c.toNat < 0x110000 := by omega
        have e1 : ¬ (0xF0 + c.toNat / 0x40000 < 0x80) := by omega
        have e2 : ¬ (0xF0 + c.toNat / 0x40000 < 0xC0) := by omega
        have e3 : ¬ (0xF0 + c.toNat / 0x40000 < 0xE0) := by omega
        have e4 : ¬ (0xF0 + c.toNat / 0x40000 < 0xF0) := by omega
        have e5 : 0xF0 + c.toNat / 0x40000 < 0xF8 := by omega
        have e6 : (0x80 ≤ 0x80 + c.toNat / 4096 % 64 ∧ 0x80 + c.toNat / 4096 % 64 < 0xC0) ∧
            (0x80 ≤ 0x80 + c.toNat / 64 % 64 ∧ 0x80 + c.toNat / 64 % 64 < 0xC0) ∧
            (0x80 ≤ 0x80 + c.toNat % 64 ∧ 0x80 + c.toNat % 64 < 0xC0) := by omega
        have e7 : (0xF0 + c.toNat / 0x40000 - 0xF0) * 0x40000 +
            (0x80 + c.toNat / 4096 % 64 - 0x80) * 4096 +
            (0x80 + c.toNat / 64 % 64 - 0x80) * 64 + (0x80 + c.toNat % 64 - 0x80) =
            c.toNat := by omega
        have e8 : ¬ ((0xF0 + c.toNat / 0x40000 - 0xF0) * 0x40000 +
            (0x80 + c.toNat / 4096 % 64 - 0x80) * 4096 +
            (0x80 + c.toNat / 64 % 64 - 0x80) * 64 + (0x80 + c.toNat % 64 - 0x80) < 0x10000) := by
          omega
        have e9 : ¬ (0x110000 ≤ (0xF0 + c.toNat / 0x40000 - 0xF0) * 0x40000 +
            (0x80 + c.toNat / 4096 % 64 - 0x80) * 4096 +
            (0x80 + c.toNat / 64 % 64 - 0x80) * 64 + (0x80 + c.toNat % 64 - 0x80)) := by omega
        simp only [utf8EncodeCp, if_neg h1, if_neg h2, if_neg h3, List.cons_append,
          List.nil_append, utf8DecodeOne, if_neg e1, if_neg e2, if_neg e3, if_neg e4,
          if_pos e5, if_pos e6, e7, if_neg e8, if_neg e9]
        rw [if_neg (by omega : ¬ (0x110000 ≤ c.toNat))]

lemma utf8DecodeAux_step (b : Nat) (rest : List Nat) (n : Nat) (rest2 : List Nat)
    (h : utf8DecodeOne (b :: rest) = some (n, rest2)) :
    utf8DecodeAux (b :: rest) = (utf8DecodeAux rest2).map (fun cs => Char.ofNat n :: cs) := by
  rw [utf8DecodeAux.eq_2]
  split
  · next heq => rw [h] at heq; exact absurd heq (by simp)
  · next n2 r2 heq =>
    rw [h] at heq
    simp only [Option.some.injEq, Prod.mk.injEq] at heq
    obtain ⟨rfl, rfl⟩ := heq
    rfl

lemma utf8DecodeAux_encodeCp (c : Char) (l : List Nat) :
    utf8DecodeAux (utf8EncodeCp c.toNat ++ l) =
      (utf8DecodeAux l).map (fun cs => c :: cs) := by
  cases henc : utf8EncodeCp c.toNat with
  | nil =>
    have h0 := utf8DecodeOne_encodeCp c []
    rw [henc] at h0
    simp [utf8DecodeOne] at h0
  | cons x xs =>
    have h1 := utf8DecodeOne_encodeCp c l
    rw [henc] at h1
    rw [List.cons_append] at h1 ⊢
    rw [utf8DecodeAux_step _ _ _ _ h1, Char.ofNat_toNat]

lemma utf8DecodeAux_flatMap (l : List Char) :
    utf8DecodeAux (l.flatMap (fun c => utf8EncodeCp c.toNat)) = some l := by
  induction l with
  | nil =>
    simp only [List.flatMap_nil]
    rw [utf8DecodeAux]
  | cons c t ih => simp [List.flatMap_cons, utf8DecodeAux_encodeCp, ih]

/-- UTF-8 round trip: `bytes.decode()` inverts `str.encode()`. -/
lemma strDecode_strEncode (s : String) : strDecode (strEncode s) = some s := by
  cases s with
  | mk l => simp [strDecode, strEncode, utf8DecodeAux_flatMap]

lemma utf8EncodeCp_lt_256 (n : Nat) (h : n < 0x110000) :
    ∀ x ∈ utf8EncodeCp n, x < 256 := by
  intro x hx
  unfold utf8EncodeCp at hx
  split at hx
  · simp at hx; omega
  · split at hx
    · simp at hx
      rcases hx with h1 | h1 <;> omega
    · split at hx
      · simp at hx
        rcases hx with h1 | h1 | h1 <;> omega
      · simp at hx
        rcases hx with h1 | h1 | h1 | h1 <;> omega

/-- Every byte of `str.encode()` output is a byte. -/
lemma strEncode_lt_256 (s : String) : ∀ x ∈ strEncode s, x < 256 := by
  intro x hx
  simp only [strEncode, List.mem_flatMap] at hx
  obtain ⟨c, _, hc⟩ := hx
  have hvv : c.toNat < 0xd800 ∨ (0xe000 ≤ c.toNat ∧ c.toNat < 0x110000) := c.valid
  have : c.toNat < 0x110000 := by omega
  exact utf8EncodeCp_lt_256 c.toNat this x hc

lemma hexVal_lt (c : Char) (v : Nat) (h : hexVal c = some v) : v < 16 := by
  unfold hexVal at h
  split at h
  · simp only [Option.some.injEq] at h
    omega
  · split at h
    · simp only [Option.some.injEq] at h
      omega
    · split at h
      · simp only [Option.some.injEq] at h
        omega
      · simp at h

lemma hexVal_not_ws (c : Char) (h : (hexVal c).isSome) : isAsciiWS c = false := by
  unfold hexVal at h
  unfold isAsciiWS
  split at h
  · next h1 =>
    simp only [Bool.or_eq_false_iff, decide_eq_false_iff_not]
    omega
  · split at h
    · next h2 =>
      simp only [Bool.or_eq_false_iff, decide_eq_false_iff_not]
      omega
    · split at h
      · next h3 =>
        simp only [Bool.or_eq_false_iff, decide_eq_false_iff_not]
        omega
      · simp at h

lemma hexDigitChar_toLower (c : Char) (v : Nat) (h : hexVal c = some v) :
    hexDigitChar v = c.toLower := by
  unfold hexVal at h
  split at h
  · next h1 =>
    simp only [Option.some.injEq] at h
    subst h
    have h4 : c.toLower = c := by
      simp only [Char.toLower]
      rw [if_neg (by omega)]
    rw [h4]
    simp only [hexDigitChar]
    rw [if_pos (by omega)]
    have e : 48 + (c.toNat - 48) = c.toNat := by omega
    rw [e]
    exact Char.ofNat_toNat c
  · split at h
    · next h2 =>
      simp only [Option.some.injEq] at h
      subst h
      have h4 : c.toLower = c := by
        simp only [Char.toLower]
        rw [if_neg (by omega)]
      rw [h4]
      simp only [hexDigitChar]
      rw [if_neg (by omega)]
      have e : 87 + (c.toNat - 87) = c.toNat := by omega
      rw [e]
      exact Char.ofNat_toNat c
    · split at h
      · next h3 =>
        simp only [Option.some.injEq] at h
        subst h
        have h4 : c.toLower = Char.ofNat (c.toNat + 32) := by
          simp only [Char.toLower]
          rw [if_pos (by omega)]
        rw [h4]
        simp only [hexDigitChar]
        rw [if_neg (by omega)]
        congr 1
        omega
      · simp at h

lemma fromhexAux_all_hex : ∀ l : List Char, l.length % 2 = 0 →
    (∀ c ∈ l, (hexVal c).isSome) →
    ∃ bs, fromhexAux l = some bs ∧ bs.flatMap byteToHex = l.map Char.toLower
  | [] => by
    intro _ _
    exact ⟨[], rfl, rfl⟩
  | [c] => by
    intro h _
    simp at h
  | c :: d :: t => by
    intro hlen hhex
    obtain ⟨bs, hbs, henc⟩ := fromhexAux_all_hex t
      (by simp only [List.length_cons] at hlen; omega)
      (fun x hx => hhex x (by simp [hx]))
    have hc := hhex c (by simp)
    have hd := hhex d (by simp)
    obtain ⟨hi, hhi⟩ := Option.isSome_iff_exists.mp hc
    obtain ⟨lo, hlo⟩ := Option.isSome_iff_exists.mp hd
    have hilt := hexVal_lt c hi hhi
    have lolt := hexVal_lt d lo hlo
    refine ⟨(16 * hi + lo) :: bs, ?_, ?_⟩
    · simp [fromhexAux, hexVal_not_ws c hc, hhi, hlo, hbs]
    · have e1 : (16 * hi + lo) / 16 = hi := by omega
      have e2 : (16 * hi + lo) % 16 = lo := by omega
      simp [List.flatMap_cons, byteToHex, e1, e2, henc,
        hexDigitChar_toLower c hi hhi, hexDigitChar_toLower d lo hlo]

lemma hexDigitChar_mem : ∀ n < 16, hexDigitChar n ∈ ("0123456789abcdef").data := by
  decide

lemma hexEncode_lowercase (bs : List Nat) (hb : ∀ x ∈ bs, x < 256) :
    ∀ c ∈ (hexEncode bs).data, c ∈ ("0123456789abcdef").data := by
  intro c hc
  simp only [hexEncode] at hc
  rw [List.mem_flatMap] at hc
  obtain ⟨b, hbmem, hcb⟩ := hc
  have hblt := hb b hbmem
  simp only [byteToHex, List.mem_cons, List.not_mem_nil, or_false] at hcb
  rcases hcb with rfl | rfl
  · exact hexDigitChar_mem (b / 16) (by omega)
  · exact hexDigitChar_mem (b % 16) (by omega)

lemma fromhexAux_none_iff : ∀ l : List Char, (∀ c ∈ l, isAsciiWS c = false) →
    (fromhexAux l = none ↔ (l.length % 2 = 1 ∨ ∃ c ∈ l, hexVal c = none))
  | [] => by
    intro _
    simp [fromhexAux]
  | [c] => by
    intro hws
    simp [fromhexAux, hws c (by simp)]
  | c :: d :: t => by
    intro hws
    have ihr := fromhexAux_none_iff t (fun x hx => hws x (by simp [hx]))
    have h1 := hws c (by simp)
    cases hc : hexVal c with
    | none =>
      simp only [fromhexAux, h1, Bool.false_eq_true, if_false, hc]
      constructor
      · intro _
        exact Or.inr ⟨c, by simp, hc⟩
      · intro _
        trivial
    | some hi =>
      cases hd : hexVal d with
      | none =>
        simp only [fromhexAux, h1, Bool.false_eq_true, if_false, hc, hd]
        constructor
        · intro _
          exact Or.inr ⟨d, by simp, hd⟩
        · intro _
          trivial
      | some lo =>
        simp only [fromhexAux, h1, Bool.false_eq_true, if_false, hc, hd,
          Option.map_eq_none']
        rw [ihr]
        constructor
        · rintro (hlen | ⟨x, hx, hhx⟩)
          · left
            simp only [List.length_cons]
            omega
          · exact Or.inr ⟨x, by simp [hx], hhx⟩
        · rintro (hlen | ⟨x, hx, hhx⟩)
          · left
            simp only [List.length_cons] at hlen
            omega
          · rcases (by simpa using hx : x = c ∨ x = d ∨ x ∈ t) with rfl | rfl | hx2
            · rw [hc] at hhx
              exact absurd hhx (by simp)
            · rw [hd] at hhx
              exact absurd hhx (by simp)
            · exact Or.inr ⟨x, hx2, hhx⟩

lemma fromhexAux_length : ∀ (l : List Char) (bs : List Nat), fromhexAux l = some bs →
    (l.filter (fun c => !isAsciiWS c)).length = 2 * bs.length
  | [] => by
    intro bs h
    simp only [fromhexAux, Option.some.injEq] at h
    subst h
    simp
  | [c] => by
    intro bs h
    by_cases hw : isAsciiWS c
    · simp only [fromhexAux, hw, if_true] at h
      simp only [Option.some.injEq] at h
      subst h
      simp [List.filter, hw]
    · simp [fromhexAux, hw] at h
  | c :: d :: t => by
    intro bs h
    by_cases hw : isAsciiWS c
    · have h2 : fromhexAux (d :: t) = some bs := by
        simpa [fromhexAux, hw] using h
      have := fromhexAux_length (d :: t) bs h2
      simpa [List.filter_cons, hw] using this
    · cases hc : hexVal c with
      | none => simp [fromhexAux, hw, hc] at h
      | some hi =>
        cases hd : hexVal d with
        | none => simp [fromhexAux, hw, hc, hd] at h
        | some lo =>
          have h2 : (fromhexAux t).map (fun l2 => (16 * hi + lo) :: l2) = some bs := by
            simpa [fromhexAux, hw, hc, hd] using h
          rw [Option.map_eq_some'] at h2
          obtain ⟨bs2, hbs2, rfl⟩ := h2
          have ihr := fromhexAux_length t bs2 hbs2
          have hdws : isAsciiWS d = false := hexVal_not_ws d (by simp [hd])
          simp only [List.filter_cons, hw, hdws, Bool.not_false, if_true,
            List.length_cons, Bool.not_eq_eq_eq_not, Bool.not_true,
            decide_eq_false_iff_not]
          simp only [List.length_cons] at ihr ⊢
          omega

/-- Claim C1: sign/verify soundness.  For a key pair `(pk, sk)` produced by
the primitive's keygen and any message `m`, whenever the primitive's sign
produces a signed message `sm` that its verify accepts back to the original
bytes (the Dilithium5 contract for a matching key pair), the wrapper's
`verify_signature(m, sign_message(m, hex sk), hex pk)` returns `True`.
Byte-validity hypotheses are the Python `bytes` invariant; the primitive
contract hypotheses are the external library's own guarantee. -/
theorem sign_verify_soundness (P : Primitive) (pk sk : List Nat) (m : String)
    (sm : List Nat)
    (hkg : P.keygen = (pk, sk))
    (hskb : ∀ x ∈ sk, x < 256)
    (hpkb : ∀ x ∈ pk, x < 256)
    (hsm : P.sign sk (strEncode m) = some sm)
    (hsmb : ∀ x ∈ sm, x < 256)
    (hver : P.verify pk sm = some (strEncode m)) :
    sign_message P m (hexEncode sk) = Except.ok (hexEncode sm) ∧
      verify_signature P m (hexEncode sm) (hexEncode pk) = Except.ok true := by
  constructor
  · simp [sign_message, fromhex_hexEncode sk hskb, hsm]
  · simp [verify_signature, fromhex_hexEncode sm hsmb, fromhex_hexEncode pk hpkb,
      hver, strDecode_strEncode]

/-- Witness for C1 at the concrete stand-in primitive, key pair
`([1], [2])` and message `"hi"`. -/
theorem sign_verify_soundness_instance :
    sign_message toyPrim "hi" (hexEncode [2]) = Except.ok (hexEncode [2, 104, 105]) ∧
      verify_signature toyPrim "hi" (hexEncode [2, 104, 105]) (hexEncode [1]) =
        Except.ok true :=
  sign_verify_soundness toyPrim [1] [2] "hi" [2, 104, 105] rfl (by decide) (by decide)
    rfl (by decide) rfl

/-- Claim C8: message-tamper rejection.  Under the same primitive contract
hypotheses as C1, verifying a different message `m2 ≠ m` against the
signature produced over `m` returns `False`: the primitive recovers the
bytes of `m`, they decode back to `m`, and the final string comparison with
`m2` fails. -/
theorem message_tamper_rejection (P : Primitive) (pk sk : List Nat) (m m2 : String)
    (sm : List Nat)
    (hkg : P.keygen = (pk, sk))
    (hpkb : ∀ x ∈ pk, x < 256)
    (hsm : P.sign sk (strEncode m) = some sm)
    (hsmb : ∀ x ∈ sm, x < 256)
    (hver : P.verify pk sm = some (strEncode m))
    (hne : m ≠ m2) :
    verify_signature P m2 (hexEncode sm) (hexEncode pk) = Except.ok false := by
  simp [verify_signature, fromhex_hexEncode sm hsmb, fromhex_hexEncode pk hpkb,
    hver, strDecode_strEncode]
  simp [beq_eq_false_iff_ne, hne]

/-- Witness for C8: the signature over `"hi"` is rejected for `"ho"`. -/
theorem message_tamper_rejection_instance :
    verify_signature toyPrim "ho" (hexEncode [2, 104, 105]) (hexEncode [1]) =
      Except.ok false :=
  message_tamper_rejection toyPrim [1] [2] "hi" "ho" [2, 104, 105] rfl (by decide)
    rfl (by decide) rfl (by decide)

/-- Claim C9: totality of verification after decoding.  Whenever both hex
arguments decode, `verify_signature` returns a boolean normally: a failing
primitive verify yields `False`, and an undecodable recovered message also
yields `False`; no exception escapes the bare `except`. -/
theorem verify_signature_total (P : Primitive) (m sig_hex pk_hex : String)
    (sig pk : List Nat)
    (h1 : fromhex sig_hex = some sig)
    (h2 : fromhex pk_hex = some pk) :
    (∃ b : Bool, verify_signature P m sig_hex pk_hex = Except.ok b) ∧
      (P.verify pk sig = none →
        verify_signature P m sig_hex pk_hex = Except.ok false) ∧
      (∀ original, P.verify pk sig = some original → strDecode original = none →
        verify_signature P m sig_hex pk_hex = Except.ok false) := by
  refine ⟨⟨(match P.verify pk sig with
            | none => false
            | some original =>
              match strDecode original with
              | none => false
              | some s => s == m), by simp [verify_signature, h1, h2]⟩, ?_, ?_⟩
  · intro hv
    simp [verify_signature, h1, h2, hv]
  · intro original hv hd
    simp [verify_signature, h1, h2, hv, hd]

/-- Witness for C9 at a structurally valid but cryptographically garbled
input: the one-byte signature `"00"` makes the stand-in primitive's verify
fail, and the call returns `False`, not an exception. -/
theorem verify_signature_total_instance :
    (∃ b : Bool, verify_signature toyPrim "hi" "00" "01" = Except.ok b) ∧
      (toyPrim.verify [1] [0] = none →
        verify_signature toyPrim "hi" "00" "01" = Except.ok false) ∧
      (∀ original, toyPrim.verify [1] [0] = some original → strDecode original = none →
        verify_signature toyPrim "hi" "00" "01" = Except.ok false) :=
  verify_signature_total toyPrim "hi" "00" "01" [0] [1] rfl rfl

/-- Claim C10: decode-before-guard boundary.  Both hex decodings in
`verify_signature` happen outside the `try` block, so a malformed signature
or public-key hex string raises `ValueError` to the caller instead of
returning `False`. -/
theorem verify_signature_raises_on_malformed_hex (P : Primitive) (m sig_hex pk_hex : String)
    (h : fromhex sig_hex = none ∨ fromhex pk_hex = none) :
    verify_signature P m sig_hex pk_hex = Except.error PyErr.valueError := by
  rcases h with h | h
  · simp [verify_signature, h]
  · cases hs : fromhex sig_hex with
    | none => simp [verify_signature, hs]
    | some sig => simp [verify_signature, hs, h]

/-- Witness for C10: the odd-length signature hex `"abc"` raises. -/
theorem verify_signature_raises_on_malformed_hex_instance :
    verify_signature toyPrim "hi" "abc" "01" = Except.error PyErr.valueError :=
  verify_signature_raises_on_malformed_hex toyPrim "hi" "abc" "01" (Or.inl rfl)

/-- Claim C7: signing precondition.  Under the Dilithium5 contract that the
primitive's sign succeeds exactly on secret keys of length `SK_LEN`,
`sign_message` fails (the primitive's exception propagates uncaught) for
every wrong-length secret key, and succeeds for every key of length
`SK_LEN` and every message, the empty message included. -/
theorem sign_precondition (P : Primitive) (sk : List Nat) (m : String)
    (hskb : ∀ x ∈ sk, x < 256)
    (hcontract : ∀ msg, (P.sign sk msg).isSome ↔ sk.length = P.SK_LEN) :
    (sk.length ≠ P.SK_LEN →
      sign_message P m (hexEncode sk) = Except.error PyErr.primitiveError) ∧
      (sk.length = P.SK_LEN →
        ∀ m2 : String, ∃ sig_hex, sign_message P m2 (hexEncode sk) = Except.ok sig_hex) := by
  constructor
  · intro hlen
    have h0 : P.sign sk (strEncode m) = none := by
      cases hs : P.sign sk (strEncode m) with
      | none => rfl
      | some v =>
        exact absurd ((hcontract (strEncode m)).mp (by simp [hs])) hlen
    simp [sign_message, fromhex_hexEncode sk hskb, h0]
  · intro hlen m2
    cases hs : P.sign sk (strEncode m2) with
    | none =>
      have := (hcontract (strEncode m2)).mpr hlen
      rw [hs] at this
      simp at this
    | some v =>
      exact ⟨hexEncode v, by simp [sign_message, fromhex_hexEncode sk hskb, hs]⟩

/-- Witness for C7: the empty secret key is rejected, and the well-shaped
key `[2]` signs the empty message. -/
theorem sign_precondition_instance :
    (([] : List Nat).length ≠ toyPrim.SK_LEN →
      sign_message toyPrim "x" (hexEncode []) = Except.error PyErr.primitiveError) ∧
      (([2] : List Nat).length = toyPrim.SK_LEN →
        ∀ m2 : String, ∃ sig_hex, sign_message toyPrim m2 (hexEncode [2]) = Except.ok sig_hex) :=
  ⟨(sign_precondition toyPrim [] "x" (by decide)
      (by intro msg; simp [toyPrim])).1,
   (sign_precondition toyPrim [2] "x" (by decide)
      (by intro msg; simp [toyPrim])).2⟩

/-- Claim C4: hex round-trip laws.  Decoding an encoded byte sequence gives
it back, and for every valid hex string (even length, digits in
`[0-9a-fA-F]`) encoding the decoding yields the lowercase form of the
string. -/
theorem hex_round_trip :
    (∀ bs : List Nat, (∀ x ∈ bs, x < 256) → fromhex (hexEncode bs) = some bs) ∧
      (∀ s : String, s.length % 2 = 0 → (∀ c ∈ s.data, (hexVal c).isSome) →
        ∃ bs, fromhex s = some bs ∧ hexEncode bs = s.toLower) := by
  refine ⟨fromhex_hexEncode, ?_⟩
  intro s hlen hhex
  obtain ⟨l⟩ := s
  obtain ⟨bs, h1, h2⟩ := fromhexAux_all_hex l hlen hhex
  refine ⟨bs, h1, ?_⟩
  have h3 : String.toLower ⟨l⟩ = ⟨l.map Char.toLower⟩ := by
    simp only [String.toLower, String.map_eq]
  rw [h3, hexEncode]
  exact congrArg String.mk h2

/-- Witness for C4 at the byte `0xAB` and the mixed-case string `"AB"`. -/
theorem hex_round_trip_instance :
    fromhex (hexEncode [171]) = some [171] ∧
      ∃ bs, fromhex "AB" = some bs ∧ hexEncode bs = "AB".toLower :=
  ⟨hex_round_trip.1 [171] (by decide), hex_round_trip.2 "AB" (by decide) (by decide)⟩

/-- Claim C5 counterexample: `bytes.fromhex` skips ASCII whitespace between
byte pairs, so the odd-length, space-containing string `"61 62"` decodes
successfully to `[0x61, 0x62]`, where the claim says decoding fails exactly
on odd length or a non-hex character. -/
theorem fromhex_accepts_spaced_pairs :
    fromhex "61 62" = some [97, 98] ∧ "61 62".length % 2 = 1 := by
  decide

/-- Claim C5 as amended: on strings free of ASCII whitespace, decoding
fails exactly when the length is odd or some character is not a hex digit
(upper case accepted); a successful decode consumes exactly two non-space
characters per output byte (no truncation or padding); and encoded output
uses only the lowercase digits `0-9a-f`. -/
theorem fromhex_characterization :
    (∀ s : String, (∀ c ∈ s.data, isAsciiWS c = false) →
      (fromhex s = none ↔ (s.length % 2 = 1 ∨ ∃ c ∈ s.data, hexVal c = none))) ∧
      (∀ (s : String) (bs : List Nat), fromhex s = some bs →
        (s.data.filter (fun c => !isAsciiWS c)).length = 2 * bs.length) ∧
      (∀ bs : List Nat, (∀ x ∈ bs, x < 256) →
        ∀ c ∈ (hexEncode bs).data, c ∈ ("0123456789abcdef").data) := by
  refine ⟨?_, ?_, hexEncode_lowercase⟩
  · intro s hws
    obtain ⟨l⟩ := s
    exact fromhexAux_none_iff l hws
  · intro s bs h
    exact fromhexAux_length s.data bs h

/-- Witness for C5 as amended: the odd-length string `"abc"` fails to
decode, the valid string `"7a"` decodes to one byte, and `hexEncode [255]`
is made of lowercase hex digits. -/
theorem fromhex_characterization_instance :
    fromhex "abc" = none ∧
      ("7a".data.filter (fun c => !isAsciiWS c)).length = 2 * ([122] : List Nat).length ∧
      ∀ c ∈ (hexEncode [255]).data, c ∈ ("0123456789abcdef").data :=
  ⟨(fromhex_characterization.1 "abc" (by decide)).mpr (Or.inl (by decide)),
   fromhex_characterization.2.1 "7a" [122] (by decide),
   fromhex_characterization.2.2 [255] (by decide)⟩

/-- Claim C2, code evaluation at the failing input: a public-key hex of the
wrong length (here the empty string, 0 bytes where `PK_LEN = 1`) makes the
primitive's verify fail inside the `try`; the bare `except` turns this into
the return value `False`.  No `InvalidInputShape` structural error exists
anywhere in the code: the wrong-length key is indistinguishable from a
cryptographically invalid signature. -/
theorem verify_wrong_length_pk_returns_false :
    ([] : List Nat).length ≠ toyPrim.PK_LEN ∧
      verify_signature toyPrim "m" "026d" "" = Except.ok false := by
  constructor
  · decide
  · rfl

/-- Claim C3, code evaluation: the signing and verification operations of
the source take exactly (message, secret-key hex) and (message, signature
hex, public-key hex) — no context tag exists in their signatures, no
concatenation scheme is applied, and the signature produced over a bare
message verifies unconditionally, with nothing for a verifier-side context
to differ from. -/
theorem sign_verify_no_context_binding :
    sign_message toyPrim "m" "02" = Except.ok "026d" ∧
      verify_signature toyPrim "m" "026d" "01" = Except.ok true := by
  constructor
  · rfl
  · have h1 : fromhex "026d" = some [2, 109] := rfl
    have h2 : fromhex "01" = some [1] := rfl
    have h3 : toyPrim.verify [1] [2, 109] = some [109] := rfl
    have h4 : strDecode [109] = some "m" := by
      have e : strEncode "m" = [109] := rfl
      have h := strDecode_strEncode "m"
      rw [e] at h
      exact h
    simp [verify_signature, h1, h2, h3, h4]

/-- Claim C6 counterexample: a primitive whose keygen returns buffers of the
wrong lengths (empty, where `PK_LEN = SK_LEN = 1`) is not rejected —
`generate_quantum_keypair` returns the hex record normally instead of
raising `PrimitiveContractViolation`. -/
theorem keygen_unchecked_lengths :
    brokenPrim.keygen.1.length ≠ brokenPrim.PK_LEN ∧
      brokenPrim.keygen.2.length ≠ brokenPrim.SK_LEN ∧
      generate_quantum_keypair brokenPrim =
        { public_key := "", secret_key := "" } := by
  refine ⟨by decide, by decide, rfl⟩

/-- Claim C6 as amended: `generate_quantum_keypair` delegates directly to
the primitive's keygen and hex-encodes both buffers with no transformation
— decoding the record recovers the keygen output exactly — and it performs
no length validation and never rejects. -/
theorem keygen_delegation (P : Primitive)
    (h1 : ∀ x ∈ P.keygen.1, x < 256) (h2 : ∀ x ∈ P.keygen.2, x < 256) :
    fromhex (generate_quantum_keypair P).public_key = some P.keygen.1 ∧
      fromhex (generate_quantum_keypair P).secret_key = some P.keygen.2 :=
  ⟨fromhex_hexEncode P.keygen.1 h1, fromhex_hexEncode P.keygen.2 h2⟩

/-- Witness for the amended C6 at the stand-in primitive. -/
theorem keygen_delegation_instance :
    fromhex (generate_quantum_keypair toyPrim).public_key = some toyPrim.keygen.1 ∧
      fromhex (generate_quantum_keypair toyPrim).secret_key = some toyPrim.keygen.2 :=
  keygen_delegation toyPrim (by decide) (by decide)

end QuantumKeygen
